import Mathlib

/-!
Verification development for the `apoioprocessual` backend.

This file gives a shallow embedding, in Lean 4, of the algorithmic core of
the repository and proves the contractual claims about it:

* `backend/app/services/document_processor.py`
  - sentence splitting + token-budgeted chunking (`chunk_text`),
  - batched embedding generation (`generate_embeddings`),
  - the document lifecycle pipeline (`process_document`).
* `backend/app/services/rag_engine.py`
  - pgvector similarity search (`search_similar_chunks`),
  - the SSE streaming chat generator (`chat_stream`).
* `backend/app/api/document_routes.py` (`update_document`)
* `backend/app/api/chat_routes.py` (`send_message_stream`).

Modelling conventions:
* The external token counter (tiktoken) is an abstract parameter
  `count_tokens : String → Nat`.
* Embedding vectors are an abstract type `V`; the external embedding,
  generation, transcription and S3 services are parameters returning
  `Except String _` (an exception's message, or the value).
* Similarity scores (floats scored by pgvector in the source) live in an
  arbitrary `LinearOrderedRing S`; cosine distance is an abstract
  parameter `dist : V → V → S`.
* Database tables are lists of rows; the SQL in the source is embedded as
  the corresponding list transformation.  `ORDER BY` with engine-chosen
  tie order is embedded as a (stable) merge sort on the sort key.
-/

namespace ApoioProcessual

/-! ## Sentence splitting (document_processor.py, line 117)

`re.split(r'(?<=[.!?\n])\s+', text)`: the text is cut at every maximal
whitespace run whose preceding character is sentence-terminal punctuation
or a newline. -/

/-- Python regex class `\s` restricted to its ASCII members. -/
def pyIsSpace (c : Char) : Bool :=
  c = ' ' || c = '\t' || c = '\n' || c = '\r' || c = '\x0b' || c = '\x0c'

/-- The lookbehind class `[.!?\n]` of the sentence-splitting regex. -/
def isSentTerm (c : Char) : Bool :=
  c = '.' || c = '!' || c = '?' || c = '\n'

/-- Python `str.strip()`: remove leading and trailing whitespace. -/
def pyStrip (s : String) : String :=
  String.mk (((s.data.dropWhile pyIsSpace).reverse.dropWhile pyIsSpace).reverse)

/-- Scanner for `re.split(r'(?<=[.!?\n])\s+', text)`: `prev` is the
character just before the scan position (the regex lookbehind), `acc` the
piece being built (reversed).  When the lookbehind holds and the current
character is whitespace, the current piece ends and the scanner switches to
`skipping` mode, consuming the rest of the greedy whitespace run; the
first non-whitespace character starts the next piece. -/
def splitSentencesGo : Bool → Option Char → List Char → List Char → List (List Char)
  | _, _, acc, [] => [acc.reverse]
  | true, prev, acc, c :: rest =>
    if pyIsSpace c then splitSentencesGo true prev acc rest
    else splitSentencesGo false (some c) (c :: acc) rest
  | false, prev, acc, c :: rest =>
    if (match prev with | some p => isSentTerm p | none => false) && pyIsSpace c then
      acc.reverse :: splitSentencesGo true none [] rest
    else
      splitSentencesGo false (some c) (c :: acc) rest

/-- `sentences = re.split(r'(?<=[.!?\n])\s+', text)`. -/
def splitSentences (text : String) : List String :=
  (splitSentencesGo false none [] text.data).map String.mk

/-! ## Token-budgeted chunker (document_processor.py, lines 111-160) -/

/-- One produced chunk: the dict `{"conteudo": ..., "token_count": ...}`. -/
structure ChunkRec where
  conteudo : String
  token_count : Nat
deriving Repr, DecidableEq

/-- Sum of the token counts of a list of sentence units. -/
def tokSum (count_tokens : String → Nat) (l : List String) : Nat :=
  (l.map count_tokens).sum

/-- The overlap walk (lines 137-144): iterate over the reversed just-closed
buffer, prepending sentences while the running total stays within the
overlap budget; stop at the first sentence that would exceed it.
`rev` is `reversed(current_chunk)`; `acc`/`accTok` are
`overlap_sentences`/`overlap_tokens`. -/
def overlapWalk (count_tokens : String → Nat) (overlap : Nat) :
    List String → List String → Nat → List String × Nat
  | [], acc, accTok => (acc, accTok)
  | s :: rest, acc, accTok =>
    if overlap < accTok + count_tokens s then (acc, accTok)
    else overlapWalk count_tokens overlap rest (s :: acc) (accTok + count_tokens s)

/-- The main chunking loop (lines 122-158).  State: emitted `chunks`, the
running buffer `cur` (`current_chunk`) and its token total `curTok`
(`current_tokens`); recursion consumes the sentence list.  The final match
arm is the trailing flush of a non-empty buffer (lines 153-158). -/
def chunkLoop (count_tokens : String → Nat) (chunk_size overlap : Nat) :
    List String → List ChunkRec → List String → Nat → List ChunkRec
  | [], chunks, cur, _ =>
    if cur = [] then chunks
    else
      chunks ++ [⟨String.intercalate " " cur, count_tokens (String.intercalate " " cur)⟩]
  | s :: rest, chunks, cur, curTok =>
    let s' := pyStrip s
    if s' = "" then chunkLoop count_tokens chunk_size overlap rest chunks cur curTok
    else
      let t := count_tokens s'
      if chunk_size < curTok + t ∧ cur ≠ [] then
        let content := String.intercalate " " cur
        let seed := overlapWalk count_tokens overlap cur.reverse [] 0
        chunkLoop count_tokens chunk_size overlap rest
          (chunks ++ [⟨content, count_tokens content⟩]) (seed.1 ++ [s']) (seed.2 + t)
      else
        chunkLoop count_tokens chunk_size overlap rest chunks (cur ++ [s']) (curTok + t)

/-- `chunk_text(text, chunk_size, overlap)`; the defaults are
`settings.CHUNK_SIZE = 500` and `settings.CHUNK_OVERLAP = 50`. -/
def chunk_text (count_tokens : String → Nat) (text : String)
    (chunk_size : Nat := 500) (overlap : Nat := 50) : List ChunkRec :=
  chunkLoop count_tokens chunk_size overlap (splitSentences text) [] [] 0

/-- The non-blank stripped sentence units of a text: the units of the
sentence split that survive the `if not sentence: continue` guard. -/
def nonblankUnits (text : String) : List String :=
  ((splitSentences text).map pyStrip).filter (fun s => s ≠ "")

/-! ### Instrumented chunker

`chunkLoopA` runs the exact same loop but remembers, for every produced
chunk, which of its units were the overlap seed carried over from the
previous chunk and which were freshly consumed from the input.  Joining
`seed ++ fresh` with single spaces recovers the chunk the plain loop emits
(`chunkLoop_eq_chunkLoopA`). -/

/-- A chunk split into its overlap seed and its freshly consumed units. -/
structure AChunk where
  seed : List String
  fresh : List String
deriving Repr, DecidableEq

/-- Erase the instrumentation: a chunk is its units joined with spaces. -/
def AChunk.toRec (count_tokens : String → Nat) (c : AChunk) : ChunkRec :=
  ⟨String.intercalate " " (c.seed ++ c.fresh),
   count_tokens (String.intercalate " " (c.seed ++ c.fresh))⟩

/-- `chunkLoop` with the buffer split into `seed ++ fresh`. -/
def chunkLoopA (count_tokens : String → Nat) (chunk_size overlap : Nat) :
    List String → List AChunk → List String → List String → Nat → List AChunk
  | [], chunks, seed, fresh, _ =>
    if seed ++ fresh = [] then chunks else chunks ++ [⟨seed, fresh⟩]
  | s :: rest, chunks, seed, fresh, curTok =>
    let s' := pyStrip s
    if s' = "" then chunkLoopA count_tokens chunk_size overlap rest chunks seed fresh curTok
    else
      let t := count_tokens s'
      if chunk_size < curTok + t ∧ seed ++ fresh ≠ [] then
        let nseed := overlapWalk count_tokens overlap (seed ++ fresh).reverse [] 0
        chunkLoopA count_tokens chunk_size overlap rest
          (chunks ++ [⟨seed, fresh⟩]) nseed.1 [s'] (nseed.2 + t)
      else
        chunkLoopA count_tokens chunk_size overlap rest chunks seed (fresh ++ [s']) (curTok + t)

/-- Instrumented `chunk_text`. -/
def chunkTextA (count_tokens : String → Nat) (text : String)
    (chunk_size : Nat := 500) (overlap : Nat := 50) : List AChunk :=
  chunkLoopA count_tokens chunk_size overlap (splitSentences text) [] [] [] 0

/-! ## Embedding batcher (document_processor.py, lines 167-181)

`generate_embeddings` issues the input texts to the external embedding
service in sequential batches of 100 (`texts[i:i+100]`), concatenating the
returned vectors; an exception from any batch propagates and aborts the
whole call.  The service is the abstract parameter `svc`; an exception is
the `Except.error` case. -/

def generate_embeddings {V : Type _} (svc : List String → Except String (List V)) :
    List String → Except String (List V)
  | [] => Except.ok []
  | t :: ts => do
    let batch ← svc ((t :: ts).take 100)
    let rest ← generate_embeddings svc ((t :: ts).drop 100)
    pure (batch ++ rest)
termination_by l => l.length
decreasing_by
  simp only [List.length_drop, List.length_cons]
  omega

/-- The i-th batch the loop `for i in range(0, len(texts), 100)` issues. -/
def batchOf (texts : List String) (i : Nat) : List String :=
  (texts.drop (100 * i)).take 100

/-! ## Similarity search (rag_engine.py, lines 44-127)

The SQL query: `chunks JOIN documents ON c.documento_id = d.id`, filtered
to `d.status = 'processed'`, optionally to `d.processo_id = :processo_id`,
and to `1 - (c.embedding <=> :embedding) >= :threshold`; ordered by the
cosine distance `c.embedding <=> :embedding` ascending; `LIMIT :top_k`.
The pgvector operator `<=>` is the abstract `dist`; the engine's tie order
inside `ORDER BY` is whatever the merge sort leaves. -/

/-- A row of the `documents` table (fields the core reads). -/
structure DocumentRow where
  id : Nat
  processo_id : Nat
  status : String
  titulo : String
  tipo : String
  participantes : Option (List String)
  data_referencia : Option String
deriving Repr, DecidableEq

/-- Chunk-level metadata snapshot stored in the `metadata` JSONB column. -/
structure ChunkMeta where
  doc_tipo : String
  doc_titulo : String
  participantes : List String
  data_referencia : Option String
deriving Repr, DecidableEq

/-- A row of the `chunks` table. -/
structure ChunkRow (V : Type _) where
  id : Nat
  documento_id : Nat
  conteudo : String
  posicao : Nat
  token_count : Nat
  embedding : V
  metadata : ChunkMeta
deriving Repr, DecidableEq

/-- The two tables the search query reads. -/
structure DB (V : Type _) where
  documents : List DocumentRow
  chunks : List (ChunkRow V)

/-- One dict of the list `search_similar_chunks` returns (lines 116-125). -/
structure SearchHit (S : Type _) where
  id : Nat
  conteudo : String
  documento_id : Nat
  doc_titulo : String
  doc_tipo : String
  participantes : Option (List String)
  data_referencia : Option String
  similarity : S
deriving Repr, DecidableEq

variable {V : Type _} {S : Type _}

/-- `search_similar_chunks(query, db, processo_id, top_k)` after the query
text has been embedded: `qe` is `embeddings[0]`, `threshold` is
`settings.SIMILARITY_THRESHOLD` and `top_k` defaults to
`settings.SIMILARITY_TOP_K = 5`. -/
def search_similar_chunks [LinearOrder S] [Sub S] [One S]
    (dist : V → V → S) (db : DB V) (qe : V)
    (processo_id : Option Nat) (top_k : Nat) (threshold : S) : List (SearchHit S) :=
  let rows : List (ChunkRow V × DocumentRow) :=
    db.chunks.flatMap fun c =>
      (db.documents.filter fun d =>
        decide (c.documento_id = d.id) && decide (d.status = "processed")
          && (match processo_id with
              | some p => decide (d.processo_id = p)
              | none => true)
          && decide (threshold ≤ 1 - dist qe c.embedding)).map fun d => (c, d)
  let sorted := rows.mergeSort fun a b =>
    decide (dist qe a.1.embedding ≤ dist qe b.1.embedding)
  (sorted.take top_k).map fun r =>
    { id := r.1.id
      conteudo := r.1.conteudo
      documento_id := r.1.documento_id
      doc_titulo := r.2.titulo
      doc_tipo := r.2.tipo
      participantes := r.2.participantes
      data_referencia := r.2.data_referencia
      similarity := 1 - dist qe r.1.embedding }

/-! ## Document lifecycle controller (document_processor.py, lines 188-282)

`process_document` is async database code; it is embedded as explicit
state passing over `PState`: the `documents` and `chunks` tables plus a
trace counter for invocations of the financial-extraction collaborator
(`FinancialAnalyzer.analyze_document`).  The S3 download + temp-file step,
text extraction/transcription, the embedding service and the analyzer are
abstract stages in `Env`; a raised exception is the `Except.error` case
carrying `str(e)`.  The analyzer itself only writes transaction rows,
which are outside this model, so its success case leaves the state
unchanged apart from the invocation trace.  The `raise` re-thrown at line
282 reaches `process_document_task`, which writes the same status/error
pair again, so the final state is the one modelled here. -/

/-- A row of the `documents` table as the lifecycle controller mutates it. -/
structure DocState where
  id : Nat
  processo_id : Nat
  tipo : String
  titulo : String
  participantes : Option (List String)
  data_referencia : Option String
  status : String
  error_message : Option String
  texto_extraido : Option String
deriving Repr, DecidableEq

/-- Database state threaded through the pipeline, plus the trace of
financial-analyzer invocations. -/
structure PState (V : Type _) where
  documents : List DocState
  chunks : List (ChunkRow V)
  analyzerCalls : Nat
deriving Repr

/-- The external stages of one ingestion attempt. -/
structure Env (V : Type _) where
  count_tokens : String → Nat
  chunk_size : Nat
  overlap : Nat
  /-- `s3.download_file` + the temp-file write (lines 201-208). -/
  download : Except String Unit
  /-- `transcribe_audio` or `extract_text` (lines 212-217): the extracted text. -/
  extract : Except String String
  /-- `generate_embeddings` on the chunk contents (line 230). -/
  embed : List String → Except String (List V)
  /-- `FinancialAnalyzer.analyze_document` (lines 264-269). -/
  analyze : Except String Unit

/-- `SELECT ... WHERE Document.id = document_id` / `scalar_one_or_none`. -/
def findDoc (docs : List DocState) (id : Nat) : Option DocState :=
  docs.find? fun d => d.id = id

/-- Mutate the row with the given id (the ORM attribute writes + commit). -/
def updateDoc (docs : List DocState) (id : Nat) (f : DocState → DocState) :
    List DocState :=
  docs.map fun d => if d.id = id then f d else d

/-- Status of a document in a state. -/
def docStatus (st : PState V) (id : Nat) : Option String :=
  (findDoc st.documents id).map DocState.status

/-- Error message of a document in a state. -/
def docErrorMsg (st : PState V) (id : Nat) : Option String :=
  (findDoc st.documents id).bind DocState.error_message

/-- The chunk rows the successful run inserts (lines 233-247): one row per
`(chunk_data, embedding)` pair of `enumerate(zip(chunks_data, embeddings))`,
with `posicao = i` and the denormalized metadata snapshot of `doc`. -/
def newChunkRows (doc : DocState) (chunks_data : List ChunkRec) (embeddings : List V) :
    List (ChunkRow V) :=
  (chunks_data.zip embeddings).enum.map fun p =>
    { id := 0
      documento_id := doc.id
      conteudo := p.2.1.conteudo
      posicao := p.1
      token_count := p.2.1.token_count
      embedding := p.2.2
      metadata :=
        { doc_tipo := doc.tipo
          doc_titulo := doc.titulo
          participantes := doc.participantes.getD []
          data_referencia := doc.data_referencia } }

/-- `process_document(document_id, db)` (lines 188-282). -/
def process_document (env : Env V) (document_id : Nat) (st : PState V) : PState V :=
  match findDoc st.documents document_id with
  | none => st
  | some doc =>
    let setDoc := fun (s : PState V) (f : DocState → DocState) =>
      { s with documents := updateDoc s.documents document_id f }
    let fail := fun (s : PState V) (e : String) =>
      setDoc s fun d => { d with status := "error", error_message := some e }
    let st1 := setDoc st fun d => { d with status := "processing" }
    match env.download with
    | Except.error e => fail st1 e
    | Except.ok _ =>
      match env.extract with
      | Except.error e => fail st1 e
      | Except.ok text =>
        let st2 := setDoc st1 fun d => { d with texto_extraido := some text }
        let chunks_data := chunk_text env.count_tokens text env.chunk_size env.overlap
        if chunks_data = [] then
          setDoc st2 fun d => { d with status := "processed" }
        else
          match env.embed (chunks_data.map ChunkRec.conteudo) with
          | Except.error e => fail st2 e
          | Except.ok embeddings =>
            let st3 := { st2 with chunks := st2.chunks ++ newChunkRows doc chunks_data embeddings }
            let st4 := setDoc st3 fun d => { d with status := "processed" }
            if doc.tipo = "extrato_bancario" ∨ doc.tipo = "comprovante" then
              match env.analyze with
              | Except.ok _ => { st4 with analyzerCalls := st4.analyzerCalls + 1 }
              | Except.error _ =>
                { st4 with analyzerCalls := st4.analyzerCalls + 1 }
            else st4

/-! ## Document update route (document_routes.py, lines 183-262)

`update_document` applies the non-`None` payload fields, patches the
denormalized chunk metadata, and — when the update re-categorizes a
`processed` document from a non-financial into a financial type — invokes
the financial analyzer, swallowing (logging) any exception it raises. -/

/-- The `DocumentUpdate` schema (all fields optional). -/
structure DocumentUpdatePayload where
  titulo : Option String
  tipo : Option String
  data_referencia : Option String
deriving Repr, DecidableEq

/-- Applying the non-`None` payload fields to the document row. -/
def applyUpdate (p : DocumentUpdatePayload) (d : DocState) : DocState :=
  let d1 := match p.titulo with | some t => { d with titulo := t } | none => d
  let d2 := match p.tipo with | some t => { d1 with tipo := t } | none => d1
  match p.data_referencia with
  | some dr => { d2 with data_referencia := some dr }
  | none => d2

/-- The `metadata || jsonb` overlay (lines 213-231): overwrite exactly the
keys whose payload field is non-`None`. -/
def patchMeta (p : DocumentUpdatePayload) (m : ChunkMeta) : ChunkMeta :=
  let m1 := match p.titulo with | some t => { m with doc_titulo := t } | none => m
  let m2 := match p.tipo with | some t => { m1 with doc_tipo := t } | none => m1
  match p.data_referencia with
  | some dr => { m2 with data_referencia := some dr }
  | none => m2

/-- `tipo in ("extrato_bancario", "comprovante")`. -/
def isFinancialTipo (t : String) : Prop :=
  t = "extrato_bancario" ∨ t = "comprovante"

instance (t : String) : Decidable (isFinancialTipo t) := by
  unfold isFinancialTipo; infer_instance

/-- `new_tipo is not None and new_tipo in financial_types`. -/
def newTipoFinancial (p : Option String) : Prop :=
  match p with
  | some t => isFinancialTipo t
  | none => False

instance (p : Option String) : Decidable (newTipoFinancial p) := by
  unfold newTipoFinancial
  cases p <;> infer_instance

/-- `update_document(document_id, payload, db)` (lines 183-262); `analyze`
is the financial analyzer's outcome.  A missing document raises 404 and
changes nothing. -/
def update_document (payload : DocumentUpdatePayload) (document_id : Nat)
    (analyze : Except String Unit) (st : PState V) : PState V :=
  match findDoc st.documents document_id with
  | none => st
  | some document =>
    let old_tipo := document.tipo
    if payload.titulo = none ∧ payload.tipo = none ∧ payload.data_referencia = none then
      st
    else
      let st1 := { st with documents := updateDoc st.documents document_id (applyUpdate payload) }
      let st2 := { st1 with chunks := st1.chunks.map fun c =>
        if c.documento_id = document_id then { c with metadata := patchMeta payload c.metadata }
        else c }
      let document' := applyUpdate payload document
      if newTipoFinancial payload.tipo
          ∧ ¬ isFinancialTipo old_tipo ∧ document'.status = "processed" then
        match analyze with
        | Except.ok _ => { st2 with analyzerCalls := st2.analyzerCalls + 1 }
        | Except.error _ => { st2 with analyzerCalls := st2.analyzerCalls + 1 }
      else st2

/-! ## Streaming chat (rag_engine.py, lines 237-308)

`chat_stream` yields Server-Sent Events; `_format_sse(event, data)`
serializes the structured `(event, data)` pair to a string.  The events
are embedded at that structured level as `SSEEvent`; the upstream LLM
stream (`openai_client.chat.completions.create(..., stream=True)`) is the
abstract list `upstream` of its chunks, each carrying the optional usage
totals (attached to the final chunk by `stream_options`) and the optional
`choices[0].delta.content`. -/

/-- One entry of the list `[{ "doc_titulo": ..., ... } for c in chunks]`
(lines 287-295), also stored per assistant message. -/
structure SourceInfo (S : Type _) where
  doc_titulo : String
  doc_tipo : String
  similarity : S
  documento_id : Nat
deriving Repr, DecidableEq

/-- The payload of the terminal `done` event (lines 301-308) — the same
shape the blocking `chat` returns (lines 219-234). -/
structure ChatResult (S : Type _) where
  answer : String
  chunks_used : List Nat
  sources : List (SourceInfo S)
  tokens_input : Nat
  tokens_output : Nat
  cost_usd : ℚ
deriving Repr, DecidableEq

/-- A structured Server-Sent Event, i.e. the `(event, data)` pair handed
to `_format_sse`. -/
inductive SSEEvent (S : Type _) where
  | status (phase : String)
  | token (content : String)
  | sources (sources : List (SourceInfo S))
  | done (result : ChatResult S)
deriving Repr, DecidableEq

/-- One chunk of the upstream LLM stream: `chunk.usage` (prompt and
completion token totals) and `chunk.choices[0].delta.content` when
`chunk.choices` is non-empty. -/
structure StreamChunk where
  usage : Option (Nat × Nat)
  content : Option String
deriving Repr, DecidableEq

/-- Truthiness of `chunk.choices and chunk.choices[0].delta.content`:
there is a delta and it is a non-empty string. -/
def deltaOf (u : StreamChunk) : Option String :=
  match u.content with
  | some s => if s = "" then none else some s
  | none => none

/-- The `async for chunk in stream` loop (lines 270-279): accumulates
`full_answer` and the usage totals while yielding one `token` event per
truthy delta, in arrival order.  Returns (yielded events, full_answer,
total_prompt_tokens, total_completion_tokens). -/
def streamLoop (S : Type _) :
    List StreamChunk → String → Nat → Nat → List (SSEEvent S) × String × Nat × Nat
  | [], ans, pin, pout => ([], ans, pin, pout)
  | u :: rest, ans, pin, pout =>
    let pin' := match u.usage with | some t => t.1 | none => pin
    let pout' := match u.usage with | some t => t.2 | none => pout
    match deltaOf u with
    | some s =>
      let r := streamLoop S rest (ans ++ s) pin' pout'
      (SSEEvent.token s :: r.1, r.2)
    | none => streamLoop S rest ans pin' pout'

/-- `cost = prompt * 0.15/1e6 + completion * 0.60/1e6`, `round(cost, 6)`
(lines 282-284; the source computes in floating point, embedded here in ℚ
with round-to-nearest). -/
def costUsd (pin pout : Nat) : ℚ :=
  (round (((pin : ℚ) * (15 / 100) / 1000000 + (pout : ℚ) * (60 / 100) / 1000000)
    * 1000000) : ℤ) / 1000000

/-- `chat_stream(query, history, db, processo_id, ...)` (lines 237-308) as
the list of events it yields, given the upstream LLM stream.  The search
is the embedded `search_similar_chunks` with the query's embedding `qe`;
`build_context`/`_build_messages` only shape the prompt sent upstream and
emit no events. -/
def chat_stream [LinearOrder S] [Sub S] [One S]
    (dist : V → V → S) (db : DB V) (qe : V) (processo_id : Option Nat)
    (top_k : Nat) (threshold : S) (upstream : List StreamChunk) : List (SSEEvent S) :=
  let chunks := search_similar_chunks dist db qe processo_id top_k threshold
  let gen := streamLoop S upstream "" 0 0
  let srcs := chunks.map fun c =>
    { doc_titulo := c.doc_titulo
      doc_tipo := c.doc_tipo
      similarity := c.similarity
      documento_id := c.documento_id : SourceInfo S }
  SSEEvent.status "searching" :: SSEEvent.status "generating" :: gen.1
    ++ [SSEEvent.sources srcs,
        SSEEvent.done
          { answer := gen.2.1
            chunks_used := chunks.map SearchHit.id
            sources := srcs
            tokens_input := gen.2.2.1
            tokens_output := gen.2.2.2
            cost_usd := costUsd gen.2.2.1 gen.2.2.2 }]

/-! ## Streaming message endpoint (chat_routes.py, lines 369-470)

`send_message_stream` saves the user message, then streams the events of
`rag_chat_stream` through `event_generator`, which captures the payload of
each `done` event into `rag_result_data` and, after the loop completes,
persists an assistant message from it when one was captured.  A client
disconnect cancels the generator: only a prefix of the events is ever
consumed and the post-loop persistence never runs.  The model below is
conservative: it runs the post-loop persistence on whatever prefix was
delivered, so proving that no assistant message is persisted for a proper
prefix covers the cancelled-generator behaviour as well. -/

/-- A row of the `messages` table (fields the streaming endpoint writes). -/
structure MessageRow (S : Type _) where
  role : String
  content : String
  /-- the assistant bookkeeping columns (`chunks_usados`, token counts,
  cost, sources metadata), all taken from the captured `done` payload -/
  payload : Option (ChatResult S)
deriving Repr, DecidableEq

/-- `rag_result_data` after the loop: each `done` event overwrites it. -/
def captureDone (events : List (SSEEvent S)) : Option (ChatResult S) :=
  events.foldl
    (fun acc e => match e with | SSEEvent.done r => some r | _ => acc) none

/-- `send_message_stream` restricted to its persistence effect on the
conversation's message list: the user message is committed before
generation starts; after the delivered events are consumed, an assistant
message is persisted exactly when a `done` payload was captured. -/
def send_message_stream (userContent : String) (delivered : List (SSEEvent S))
    (messages : List (MessageRow S)) : List (MessageRow S) :=
  let withUser := messages ++ [{ role := "user", content := userContent, payload := none }]
  match captureDone delivered with
  | some r =>
    withUser ++ [{ role := "assistant", content := r.answer, payload := some r }]
  | none => withUser

/-- `chunk.usage`-style discriminator for the terminal event. -/
def SSEEvent.isDone : SSEEvent S → Bool
  | SSEEvent.done _ => true
  | _ => false

/-- Concatenation of the delta strings, in arrival order (`full_answer`). -/
def strConcat : List String → String
  | [] => ""
  | s :: rest => s ++ strConcat rest

/-- The usage totals after consuming the stream: each upstream chunk that
carries usage overwrites the running `(prompt, completion)` totals. -/
def usageTotals (upstream : List StreamChunk) (pin pout : Nat) : Nat × Nat :=
  upstream.foldl (fun p u => match u.usage with | some t => t | none => p) (pin, pout)

/-! ## Concrete fixtures used by the witnesses

Vectors are `Int` (resp. `Nat`), scores are `Int`, the token counter is
`String.length`, the embedding service maps each text to `0`. -/

def wdist : Int → Int → Int := fun a b => if a ≤ b then b - a else a - b

def wdoc1 : DocumentRow := ⟨1, 7, "processed", "Contrato de aluguel", "contrato", none, none⟩

def wdoc2 : DocumentRow := ⟨2, 7, "uploaded", "Extrato", "extrato_bancario", none, none⟩

def wmeta : ChunkMeta := ⟨"contrato", "Contrato de aluguel", [], none⟩

def wchunk1 : ChunkRow Int := ⟨10, 1, "clausula primeira", 0, 3, 2, wmeta⟩

def wchunk2 : ChunkRow Int := ⟨11, 2, "saldo", 0, 1, 0, wmeta⟩

def wdb : DB Int := ⟨[wdoc1, wdoc2], [wchunk1, wchunk2]⟩

def whit : SearchHit Int :=
  ⟨10, "clausula primeira", 1, "Contrato de aluguel", "contrato", none, none, -1⟩

def pdoc : DocState := ⟨1, 7, "outro", "Caderno", none, none, "uploaded", none, none⟩

def pdocFin : DocState := { pdoc with tipo := "extrato_bancario" }

def legacyChunk : ChunkRow Nat := ⟨99, 1, "legacy", 0, 1, 0, ⟨"outro", "Caderno", [], none⟩⟩

def pst0 : PState Nat := ⟨[pdoc], [legacyChunk], 0⟩

def pstFin : PState Nat := ⟨[pdocFin], [], 0⟩

def pdocProc : DocState := { pdoc with status := "processed" }

def pstProc : PState Nat := ⟨[pdocProc], [legacyChunk], 0⟩

def envOK : Env Nat :=
  ⟨String.length, 500, 50, Except.ok (), Except.ok "Hello world.",
   fun ts => Except.ok (ts.map (fun _ => 0)), Except.ok ()⟩

def envFinErr : Env Nat := { envOK with analyze := Except.error "analyzer exploded" }

def envEmpty : Env Nat := { envOK with extract := Except.ok "" }

def sups : List StreamChunk :=
  [⟨none, some "Hel"⟩, ⟨none, some ""⟩, ⟨none, none⟩, ⟨none, some "lo"⟩,
   ⟨some (100, 7), none⟩]

/-! ## Chunker lemmas -/

section ChunkerLemmas

variable (ct : String → Nat) (cs ov : Nat)

/-- Erasure: the plain loop on the buffer `seed ++ fresh` is the
instrumented loop followed by joining each chunk's units. -/
theorem chunkLoop_eq_chunkLoopA (units : List String) :
    ∀ (chunks : List AChunk) (seed fresh : List String) (curTok : Nat),
      chunkLoop ct cs ov units (chunks.map (AChunk.toRec ct)) (seed ++ fresh) curTok
        = (chunkLoopA ct cs ov units chunks seed fresh curTok).map (AChunk.toRec ct) := by
  induction units with
  | nil =>
    intro chunks seed fresh curTok
    simp only [chunkLoop, chunkLoopA]
    by_cases h : seed ++ fresh = []
    · simp [h]
    · simp [h, AChunk.toRec]
  | cons s rest ih =>
    intro chunks seed fresh curTok
    simp only [chunkLoop, chunkLoopA]
    by_cases hs : pyStrip s = ""
    · simp only [hs, if_pos rfl]
      exact ih chunks seed fresh curTok
    · simp only [hs, if_neg hs]
      by_cases hc : cs < curTok + ct (pyStrip s) ∧ seed ++ fresh ≠ []
      · simp only [if_pos hc]
        have h2 := ih (chunks ++ [⟨seed, fresh⟩])
          (overlapWalk ct ov (seed ++ fresh).reverse [] 0).1 [pyStrip s]
          ((overlapWalk ct ov (seed ++ fresh).reverse [] 0).2 + ct (pyStrip s))
        simpa [AChunk.toRec] using h2
      · simp only [if_neg hc]
        have h2 := ih chunks seed (fresh ++ [pyStrip s]) (curTok + ct (pyStrip s))
        simpa [List.append_assoc] using h2

/-- Erasure at the top level. -/
theorem chunk_text_eq_chunkTextA (text : String) :
    chunk_text ct text cs ov = (chunkTextA ct text cs ov).map (AChunk.toRec ct) := by
  have h := chunkLoop_eq_chunkLoopA ct cs ov (splitSentences text) [] [] [] 0
  simpa [chunk_text, chunkTextA] using h

/-- Joining the fresh unit lists of the loop's output recovers the emitted
fresh units so far, the current buffer's fresh units, and every non-blank
stripped unit still to be consumed, in order. -/
theorem chunkLoopA_fresh_flatten (units : List String) :
    ∀ (chunks : List AChunk) (seed fresh : List String) (curTok : Nat),
      ((chunkLoopA ct cs ov units chunks seed fresh curTok).map AChunk.fresh).flatten
        = (chunks.map AChunk.fresh).flatten ++ fresh
            ++ (units.map pyStrip).filter (fun s => s ≠ "") := by
  induction units with
  | nil =>
    intro chunks seed fresh curTok
    simp only [chunkLoopA]
    by_cases h : seed ++ fresh = []
    · obtain ⟨h1, h2⟩ := List.append_eq_nil.mp h
      simp [h, h1, h2]
    · simp [h]
  | cons s rest ih =>
    intro chunks seed fresh curTok
    simp only [chunkLoopA, List.map_cons, List.filter_cons]
    by_cases hs : pyStrip s = ""
    · simp only [hs, if_pos rfl]
      have : ¬ (("" : String) ≠ "") := by simp
      simp only [decide_eq_true_eq]
      rw [if_neg this]
      exact ih chunks seed fresh curTok
    · simp only [if_neg hs, decide_eq_true_eq]
      rw [if_pos hs]
      by_cases hc : cs < curTok + ct (pyStrip s) ∧ seed ++ fresh ≠ []
      · simp only [if_pos hc]
        rw [ih]
        simp
      · simp only [if_neg hc]
        rw [ih]
        simp

/-- The accumulated chunks are a prefix of the loop's output. -/
theorem chunkLoopA_eq_append (units : List String) :
    ∀ (chunks : List AChunk) (seed fresh : List String) (curTok : Nat),
      chunkLoopA ct cs ov units chunks seed fresh curTok
        = chunks ++ chunkLoopA ct cs ov units [] seed fresh curTok := by
  induction units with
  | nil =>
    intro chunks seed fresh curTok
    simp only [chunkLoopA]
    by_cases h : seed ++ fresh = [] <;> simp [h]
  | cons s rest ih =>
    intro chunks seed fresh curTok
    simp only [chunkLoopA]
    by_cases hs : pyStrip s = ""
    · simp only [hs, if_pos rfl]
      exact ih chunks seed fresh curTok
    · simp only [if_neg hs]
      by_cases hc : cs < curTok + ct (pyStrip s) ∧ seed ++ fresh ≠ []
      · simp only [if_pos hc, List.nil_append]
        have h1 := ih (chunks ++ [⟨seed, fresh⟩])
          (overlapWalk ct ov (seed ++ fresh).reverse [] 0).1 [pyStrip s]
          ((overlapWalk ct ov (seed ++ fresh).reverse [] 0).2 + ct (pyStrip s))
        have h2 := ih ([⟨seed, fresh⟩])
          (overlapWalk ct ov (seed ++ fresh).reverse [] 0).1 [pyStrip s]
          ((overlapWalk ct ov (seed ++ fresh).reverse [] 0).2 + ct (pyStrip s))
        rw [h1, h2]
        simp
      · simp only [if_neg hc]
        exact ih chunks seed (fresh ++ [pyStrip s]) (curTok + ct (pyStrip s))

/-- Chunks already emitted stay in the output. -/
theorem mem_chunkLoopA_of_mem {c : AChunk} (units : List String)
    (chunks : List AChunk) (seed fresh : List String) (curTok : Nat)
    (h : c ∈ chunks) : c ∈ chunkLoopA ct cs ov units chunks seed fresh curTok := by
  rw [chunkLoopA_eq_append]
  exact List.mem_append_left _ h

/-- Once the buffer holds exactly one fresh unit and its token total already
exceeds the budget, that buffer is emitted as a chunk whose fresh part is
that single unit. -/
theorem chunkLoopA_emit_single (units : List String) :
    ∀ (chunks : List AChunk) (seed : List String) (u : String) (curTok : Nat),
      cs < curTok →
      AChunk.mk seed [u] ∈ chunkLoopA ct cs ov units chunks seed [u] curTok := by
  induction units with
  | nil =>
    intro chunks seed u curTok _
    simp only [chunkLoopA]
    have h : seed ++ [u] ≠ [] := by simp
    simp [h]
  | cons s rest ih =>
    intro chunks seed u curTok hcs
    simp only [chunkLoopA]
    by_cases hs : pyStrip s = ""
    · simp only [hs, if_pos rfl]
      exact ih chunks seed u curTok hcs
    · simp only [if_neg hs]
      have hc : cs < curTok + ct (pyStrip s) ∧ seed ++ [u] ≠ [] := by
        constructor
        · exact Nat.lt_of_lt_of_le hcs (Nat.le_add_right _ _)
        · simp
      simp only [if_pos hc]
      exact mem_chunkLoopA_of_mem ct cs ov rest _ _ _ _ (List.mem_append_right _ (by simp))

/-- Every non-blank unit whose own token count exceeds the budget ends up
as the single fresh unit of some produced chunk. -/
theorem chunkLoopA_overlong (units : List String) :
    ∀ (chunks : List AChunk) (seed fresh : List String) (curTok : Nat) (u : String),
      u ∈ (units.map pyStrip).filter (fun s => s ≠ "") → cs < ct u →
      ∃ sd, AChunk.mk sd [u] ∈ chunkLoopA ct cs ov units chunks seed fresh curTok := by
  induction units with
  | nil => intro _ _ _ _ _ h; simp at h
  | cons s rest ih =>
    intro chunks seed fresh curTok u hu hcs
    simp only [List.map_cons, List.filter_cons] at hu
    by_cases hs : pyStrip s = ""
    · simp only [hs, decide_eq_true_eq] at hu
      rw [if_neg (by simp)] at hu
      simp only [chunkLoopA, hs, if_pos rfl]
      exact ih chunks seed fresh curTok u hu hcs
    · have hcond : (decide (pyStrip s ≠ "") = true) := by simp [hs]
      rw [if_pos hcond, List.mem_cons] at hu
      simp only [chunkLoopA, if_neg hs]
      rcases hu with hu | hu
      · subst hu
        by_cases hb : seed ++ fresh = []
        · have hc : ¬ (cs < curTok + ct (pyStrip s) ∧ seed ++ fresh ≠ []) := by
            intro h; exact h.2 hb
          simp only [if_neg hc]
          obtain ⟨h1, h2⟩ := List.append_eq_nil.mp hb
          subst h1; subst h2
          exact ⟨[], chunkLoopA_emit_single ct cs ov rest chunks [] (pyStrip s)
            (curTok + ct (pyStrip s))
            (Nat.lt_of_lt_of_le hcs (Nat.le_add_left _ _))⟩
        · have hc : cs < curTok + ct (pyStrip s) ∧ seed ++ fresh ≠ [] :=
            ⟨Nat.lt_of_lt_of_le hcs (Nat.le_add_left _ _), hb⟩
          simp only [if_pos hc]
          exact ⟨_, chunkLoopA_emit_single ct cs ov rest _ _ (pyStrip s) _
            (Nat.lt_of_lt_of_le hcs (Nat.le_add_left _ _))⟩
      · by_cases hc : cs < curTok + ct (pyStrip s) ∧ seed ++ fresh ≠ []
        · simp only [if_pos hc]
          exact ih _ _ _ _ u hu hcs
        · simp only [if_neg hc]
          exact ih _ _ _ _ u hu hcs

/-- Full description of the overlap walk over a reversed buffer: it keeps
some initial segment of `rev` (a trailing segment of the buffer), its token
total stays within the budget, and the first unit it rejects — when one
exists — would push the total past the budget. -/
theorem overlapWalk_spec (rev : List String) :
    ∀ (acc : List String) (accTok : Nat), accTok ≤ ov →
      ∃ k, k ≤ rev.length
        ∧ overlapWalk ct ov rev acc accTok
            = ((rev.take k).reverse ++ acc, tokSum ct (rev.take k) + accTok)
        ∧ tokSum ct (rev.take k) + accTok ≤ ov
        ∧ ∀ x, rev[k]? = some x → ov < ct x + (tokSum ct (rev.take k) + accTok) := by
  induction rev with
  | nil =>
    intro acc accTok hle
    exact ⟨0, Nat.le_refl _, by simp [overlapWalk, tokSum], by simpa [tokSum], by simp⟩
  | cons s rest ih =>
    intro acc accTok hle
    by_cases h : ov < accTok + ct s
    · refine ⟨0, Nat.zero_le _, by simp [overlapWalk, h, tokSum], by simpa [tokSum], ?_⟩
      intro x hx
      simp only [List.getElem?_cons_zero, Option.some.injEq] at hx
      subst hx
      simpa [tokSum, Nat.add_comm] using h
    · have h' : accTok + ct s ≤ ov := Nat.le_of_not_lt h
      obtain ⟨k, hk, heq, hbound, hstop⟩ := ih (s :: acc) (accTok + ct s) h'
      refine ⟨k + 1, Nat.succ_le_succ hk, ?_, ?_, ?_⟩
      · simp only [overlapWalk, if_neg h, List.take_succ_cons, heq, Prod.mk.injEq]
        constructor
        · simp
        · simp only [tokSum, List.map_cons, List.sum_cons]
          omega
      · simp only [List.take_succ_cons, tokSum, List.map_cons, List.sum_cons]
        simp only [tokSum] at hbound
        omega
      · intro x hx
        simp only [List.getElem?_cons_succ] at hx
        have := hstop x hx
        simp only [List.take_succ_cons, tokSum, List.map_cons, List.sum_cons]
        simp only [tokSum] at this
        omega

/-- The seed produced by the overlap walk on a buffer `l`: a suffix of `l`
whose token total is within the overlap budget, maximal in the sense that
extending it by the preceding unit would exceed the budget; the walk also
returns the seed's token total. -/
theorem overlapWalk_seed (l : List String) :
    (overlapWalk ct ov l.reverse [] 0).1 <:+ l
    ∧ (overlapWalk ct ov l.reverse [] 0).2 = tokSum ct (overlapWalk ct ov l.reverse [] 0).1
    ∧ tokSum ct (overlapWalk ct ov l.reverse [] 0).1 ≤ ov
    ∧ ∀ x, (x :: (overlapWalk ct ov l.reverse [] 0).1) <:+ l →
        ov < ct x + tokSum ct (overlapWalk ct ov l.reverse [] 0).1 := by
  obtain ⟨k, hk, heq, hbound, hstop⟩ := overlapWalk_spec ct ov l.reverse []
    0 (Nat.zero_le _)
  have htok : tokSum ct ((l.reverse.take k).reverse) = tokSum ct (l.reverse.take k) := by
    simp [tokSum, List.map_reverse, List.sum_reverse]
  have hw1 : (overlapWalk ct ov l.reverse [] 0).1 = (l.reverse.take k).reverse := by
    simp [heq]
  have hw2 : (overlapWalk ct ov l.reverse [] 0).2 = tokSum ct (l.reverse.take k) := by
    simp [heq]
  have hsuf : (l.reverse.take k).reverse <:+ l := by
    obtain ⟨t, ht⟩ := List.take_prefix k l.reverse
    refine ⟨t.reverse, ?_⟩
    calc t.reverse ++ (l.reverse.take k).reverse
        = (l.reverse.take k ++ t).reverse := by simp
      _ = l.reverse.reverse := by rw [ht]
      _ = l := by simp
  refine ⟨hw1 ▸ hsuf, by rw [hw1, hw2, htok], ?_, ?_⟩
  · rw [hw1, htok]
    simpa using hbound
  · intro x hx
    rw [hw1] at hx
    rw [hw1, htok]
    have hpre : (l.reverse.take k) ++ [x] <+: l.reverse := by
      have h2 : (x :: (l.reverse.take k).reverse).reverse <+: l.reverse :=
        List.reverse_prefix.mpr hx
      simpa using h2
    obtain ⟨r, hr⟩ := hpre
    have hlen : (l.reverse.take k).length = k := by
      simp [List.length_take, Nat.min_eq_left (by simpa using hk)]
    have hget : l.reverse[k]? = some x := by
      rw [← hr, List.append_assoc, List.getElem?_append_right (by omega)]
      simp [hlen]
    have := hstop x hget
    simpa using this

/-- The relation C8 asserts between a produced chunk and the overlap seed
of the next one: the seed is a trailing window of the chunk's units, its
token total does not exceed the overlap budget, and one more trailing unit
would exceed it. -/
def seedOK (ct : String → Nat) (ov : Nat) (prev : AChunk) (s : List String) : Prop :=
  s <:+ (prev.seed ++ prev.fresh)
  ∧ tokSum ct s ≤ ov
  ∧ ∀ x, (x :: s) <:+ (prev.seed ++ prev.fresh) → ov < ct x + tokSum ct s

/-- Loop invariant for C8: consecutive emitted chunks are linked by
`seedOK`, and the current buffer's seed is a valid overlap seed of the most
recently emitted chunk. -/
theorem chunkLoopA_chain (units : List String) :
    ∀ (chunks : List AChunk) (seed fresh : List String) (curTok : Nat),
      List.Chain' (fun a b => seedOK ct ov a b.seed) chunks →
      (∀ last, chunks.getLast? = some last → seedOK ct ov last seed) →
      List.Chain' (fun a b => seedOK ct ov a b.seed)
        (chunkLoopA ct cs ov units chunks seed fresh curTok) := by
  induction units with
  | nil =>
    intro chunks seed fresh curTok hchain hlast
    simp only [chunkLoopA]
    by_cases h : seed ++ fresh = []
    · simpa [h] using hchain
    · rw [if_neg h, List.chain'_append]
      refine ⟨hchain, by simp, ?_⟩
      intro x hx y hy
      simp only [List.head?_cons, Option.mem_def, Option.some.injEq] at hy
      subst hy
      exact hlast x hx
  | cons s rest ih =>
    intro chunks seed fresh curTok hchain hlast
    simp only [chunkLoopA]
    by_cases hs : pyStrip s = ""
    · simp only [hs, if_pos rfl]
      exact ih chunks seed fresh curTok hchain hlast
    · simp only [if_neg hs]
      by_cases hc : cs < curTok + ct (pyStrip s) ∧ seed ++ fresh ≠ []
      · simp only [if_pos hc]
        apply ih
        · rw [List.chain'_append]
          refine ⟨hchain, by simp, ?_⟩
          intro x hx y hy
          simp only [List.head?_cons, Option.mem_def, Option.some.injEq] at hy
          subst hy
          exact hlast x hx
        · intro last hlast'
          rw [List.getLast?_concat] at hlast'
          obtain rfl : (⟨seed, fresh⟩ : AChunk) = last := by
            simpa using hlast'
          obtain ⟨h1, h2, h3, h4⟩ := overlapWalk_seed ct ov (seed ++ fresh)
          exact ⟨h1, h2 ▸ h3, fun x hx => h2 ▸ h4 x hx⟩
      · simp only [if_neg hc]
        exact ih chunks seed (fresh ++ [pyStrip s]) (curTok + ct (pyStrip s)) hchain hlast

end ChunkerLemmas

/-! ## Claims C6, C7, C8 -/

/-- Claim C6: the chunker's output decomposes into per-chunk unit lists
(`seed ++ fresh`, joined with single spaces), and concatenating the fresh
(first-chunk-position) unit lists over all chunks yields every non-blank
sentence-unit of the input exactly once, in input order — later
occurrences of a unit can only come from the overlap seeds. -/
theorem chunker_fresh_coverage (ct : String → Nat) (cs ov : Nat) (text : String) :
    chunk_text ct text cs ov = (chunkTextA ct text cs ov).map (AChunk.toRec ct)
    ∧ ((chunkTextA ct text cs ov).map AChunk.fresh).flatten = nonblankUnits text := by
  refine ⟨chunk_text_eq_chunkTextA ct cs ov text, ?_⟩
  have h := chunkLoopA_fresh_flatten ct cs ov (splitSentences text) [] [] [] 0
  simpa [chunkTextA, nonblankUnits] using h

/-- Claim C7: a non-blank sentence-unit whose own token count exceeds
`chunk_size` is still emitted intact: it is the single fresh unit of one of
the produced chunks, whose content is the unit preceded only by an overlap
seed — never split mid-sentence, never truncated. -/
theorem chunker_overlong_unit_intact (ct : String → Nat) (cs ov : Nat) (text : String)
    (u : String) (hu : u ∈ nonblankUnits text) (hover : cs < ct u) :
    ∃ sd, AChunk.mk sd [u] ∈ chunkTextA ct text cs ov
      ∧ ChunkRec.mk (String.intercalate " " (sd ++ [u]))
          (ct (String.intercalate " " (sd ++ [u]))) ∈ chunk_text ct text cs ov := by
  obtain ⟨sd, hm⟩ := chunkLoopA_overlong ct cs ov (splitSentences text) [] [] [] 0 u
    (by simpa [nonblankUnits] using hu) hover
  refine ⟨sd, hm, ?_⟩
  rw [chunk_text_eq_chunkTextA]
  exact List.mem_map_of_mem _ hm

/-- Witness for C7 at `ct = String.length`, `chunk_size = 3`,
`overlap = 2`, on a text whose first unit has 7 > 3 tokens. -/
theorem chunker_overlong_unit_intact_witness :
    "abcdef." ∈ nonblankUnits "abcdef. gh." ∧ 3 < "abcdef.".length
    ∧ ∃ sd, AChunk.mk sd ["abcdef."] ∈ chunkTextA String.length "abcdef. gh." 3 2
      ∧ ChunkRec.mk (String.intercalate " " (sd ++ ["abcdef."]))
          (String.length (String.intercalate " " (sd ++ ["abcdef."])))
          ∈ chunk_text String.length "abcdef. gh." 3 2 :=
  ⟨by decide, by decide,
   chunker_overlong_unit_intact String.length 3 2 "abcdef. gh." "abcdef."
     (by decide) (by decide)⟩

/-- Claim C8: consecutive produced chunks are linked by the overlap seed:
each chunk's seed is a trailing window of the previous chunk's units whose
token total does not exceed `overlap`, and one more trailing unit would
exceed the overlap budget (the walk stops before exceeding it); joining
`seed ++ fresh` of each instrumented chunk gives exactly the `chunk_text`
output, so adjacent chunks textually share the seed. -/
theorem chunker_overlap_chain (ct : String → Nat) (cs ov : Nat) (text : String) :
    List.Chain' (fun a b => seedOK ct ov a b.seed) (chunkTextA ct text cs ov)
    ∧ chunk_text ct text cs ov = (chunkTextA ct text cs ov).map (AChunk.toRec ct) := by
  refine ⟨?_, chunk_text_eq_chunkTextA ct cs ov text⟩
  exact chunkLoopA_chain ct cs ov (splitSentences text) [] [] [] 0
    (by simp) (by simp)

/-! ## Embedding batcher lemmas (claim C9) -/

section EmbeddingLemmas

variable {V : Type _}

/-- A service that embeds each text pointwise makes `generate_embeddings`
the pointwise map, independently of the batch boundaries. -/
theorem generate_embeddings_pointwise (f : String → V) :
    ∀ (n : Nat) (texts : List String), texts.length ≤ n →
      generate_embeddings (fun b => Except.ok (b.map f)) texts
        = Except.ok (texts.map f) := by
  intro n
  induction n with
  | zero =>
    intro texts hlen
    have : texts = [] := List.eq_nil_of_length_eq_zero (Nat.le_zero.mp hlen)
    subst this
    simp [generate_embeddings]
  | succ n ih =>
    intro texts hlen
    match texts with
    | [] => simp [generate_embeddings]
    | t :: ts =>
      rw [generate_embeddings]
      have hlc : (t :: ts).length = ts.length + 1 := rfl
      have hdrop : ((t :: ts).drop 100).length ≤ n := by
        simp only [List.length_drop]
        omega
      rw [ih ((t :: ts).drop 100) hdrop]
      show Except.ok (List.map f (List.take 100 (t :: ts))
        ++ List.map f (List.drop 100 (t :: ts))) = _
      rw [← List.map_append, List.take_append_drop]

/-- If the whole call succeeds, every batch the loop issues succeeded. -/
theorem generate_embeddings_ok_batches (svc : List String → Except String (List V)) :
    ∀ (n : Nat) (texts : List String), texts.length ≤ n →
      ∀ out, generate_embeddings svc texts = Except.ok out →
        ∀ i, 100 * i < texts.length → ∃ vs, svc (batchOf texts i) = Except.ok vs := by
  intro n
  induction n with
  | zero =>
    intro texts hlen out _ i hi
    omega
  | succ n ih =>
    intro texts hlen out hok i hi
    match texts with
    | [] => simp at hi
    | t :: ts =>
      rw [generate_embeddings] at hok
      rcases hsvc : svc ((t :: ts).take 100) with e | b
      · rw [hsvc] at hok
        simp [Bind.bind, Except.bind] at hok
      · rw [hsvc] at hok
        rcases hrest : generate_embeddings svc ((t :: ts).drop 100) with e | rest
        · rw [hrest] at hok
          simp [Bind.bind, Except.bind] at hok
        · match i with
          | 0 => exact ⟨b, by simpa [batchOf] using hsvc⟩
          | j + 1 =>
            have hlc : (t :: ts).length = ts.length + 1 := rfl
            have hdrop : ((t :: ts).drop 100).length ≤ n := by
              simp only [List.length_drop]
              omega
            have hj : 100 * j < ((t :: ts).drop 100).length := by
              simp only [List.length_drop]
              omega
            obtain ⟨vs, hvs⟩ := ih ((t :: ts).drop 100) hdrop rest hrest j hj
            refine ⟨vs, ?_⟩
            have hbatch : batchOf (t :: ts) (j + 1) = batchOf ((t :: ts).drop 100) j := by
              have harith : 100 * (j + 1) = 100 + 100 * j := by ring
              simp only [batchOf, List.drop_drop, harith]
            rwa [hbatch]

/-- A length-preserving service yields one vector per input text. -/
theorem generate_embeddings_length (svc : List String → Except String (List V))
    (hlen : ∀ b r, svc b = Except.ok r → r.length = b.length) :
    ∀ (n : Nat) (texts : List String), texts.length ≤ n →
      ∀ out, generate_embeddings svc texts = Except.ok out →
        out.length = texts.length := by
  intro n
  induction n with
  | zero =>
    intro texts hle out hok
    have : texts = [] := List.eq_nil_of_length_eq_zero (Nat.le_zero.mp hle)
    subst this
    simp [generate_embeddings] at hok
    subst hok
    rfl
  | succ n ih =>
    intro texts hle out hok
    match texts with
    | [] =>
      simp [generate_embeddings] at hok
      subst hok
      rfl
    | t :: ts =>
      rw [generate_embeddings] at hok
      rcases hsvc : svc ((t :: ts).take 100) with e | b
      · rw [hsvc] at hok
        simp [Bind.bind, Except.bind] at hok
      · rw [hsvc] at hok
        rcases hrest : generate_embeddings svc ((t :: ts).drop 100) with e | rest
        · rw [hrest] at hok
          simp [Bind.bind, Except.bind] at hok
        · rw [hrest] at hok
          simp only [Bind.bind, Except.bind, Except.ok.injEq, pure, Except.pure] at hok
          have hlc : (t :: ts).length = ts.length + 1 := rfl
          have hdrop : ((t :: ts).drop 100).length ≤ n := by
            simp only [List.length_drop]
            omega
          have h1 := hlen _ _ hsvc
          have h2 := ih ((t :: ts).drop 100) hdrop rest hrest
          rw [← hok]
          simp only [List.length_append, h1, h2, List.length_take, List.length_drop]
          omega

end EmbeddingLemmas

/-- Claim C9: `generate_embeddings` embeds a pointwise, order-preserving
service into the pointwise map (one vector per input text, in input order,
independent of the 100-sized batch boundaries); and when the whole call
succeeds every sequentially issued batch `texts[100*i : 100*i + 100]`
succeeded — a failing batch makes the whole call fail, and `Except` returns
no partial result on failure — with a length-preserving service giving
exactly one vector per input. -/
theorem embedding_batcher (V : Type _) (f : String → V)
    (svc : List String → Except String (List V)) (texts : List String) :
    generate_embeddings (fun b => Except.ok (b.map f)) texts = Except.ok (texts.map f)
    ∧ (∀ out, generate_embeddings svc texts = Except.ok out →
        (∀ i, 100 * i < texts.length → ∃ vs, svc (batchOf texts i) = Except.ok vs)
        ∧ ((∀ b r, svc b = Except.ok r → r.length = b.length) →
            out.length = texts.length)) := by
  refine ⟨generate_embeddings_pointwise f texts.length texts (Nat.le_refl _), ?_⟩
  intro out hok
  exact ⟨generate_embeddings_ok_batches svc texts.length texts (Nat.le_refl _) out hok,
    fun hlen => generate_embeddings_length svc hlen texts.length texts (Nat.le_refl _) out hok⟩

/-- Witness for C9 on three texts embedded by `String.length`. -/
theorem embedding_batcher_witness :
    generate_embeddings (fun b => Except.ok (b.map String.length)) ["a", "bb", "ccc"]
      = Except.ok [1, 2, 3]
    ∧ ∃ vs : List Nat,
        (Except.ok ((batchOf ["a", "bb", "ccc"] 0).map String.length) : Except String (List Nat))
          = Except.ok vs := by
  have h := embedding_batcher Nat String.length
    (fun b => Except.ok (b.map String.length)) ["a", "bb", "ccc"]
  exact ⟨h.1, (h.2 _ h.1).1 0 (by decide)⟩

/-! ## Claim C1: similarity search -/

/-- Claim C1: every result of `search_similar_chunks` comes from a chunk of
a `processed` document (of the given case when one is supplied), is scored
`similarity = 1 - dist(query, fragment)` and meets the relevance floor; at
most `top_k` results are returned, in descending similarity order; and the
empty database yields the empty result list, a valid outcome rather than
an error. -/
theorem similarity_search_contract {V S : Type _} [LinearOrderedAddCommGroup S] [One S]
    (dist : V → V → S) (db : DB V) (qe : V) (pid : Option Nat)
    (top_k : Nat) (threshold : S) :
    (∀ r ∈ search_similar_chunks dist db qe pid top_k threshold,
      ∃ c ∈ db.chunks, ∃ d ∈ db.documents,
        c.documento_id = d.id
        ∧ d.status = "processed"
        ∧ (∀ p, pid = some p → d.processo_id = p)
        ∧ r.similarity = 1 - dist qe c.embedding
        ∧ threshold ≤ r.similarity
        ∧ r.id = c.id ∧ r.conteudo = c.conteudo ∧ r.documento_id = c.documento_id
        ∧ r.doc_titulo = d.titulo ∧ r.doc_tipo = d.tipo)
    ∧ (search_similar_chunks dist db qe pid top_k threshold).length ≤ top_k
    ∧ List.Pairwise (fun a b => b ≤ a)
        ((search_similar_chunks dist db qe pid top_k threshold).map
          (fun r => r.similarity))
    ∧ search_similar_chunks dist (DB.mk [] []) qe pid top_k threshold = [] := by
  refine ⟨?_, ?_, ?_, ?_⟩
  · intro r hr
    simp only [search_similar_chunks, List.mem_map] at hr
    obtain ⟨row, hrow, rfl⟩ := hr
    have hrow' := List.mem_mergeSort.mp (List.mem_of_mem_take hrow)
    simp only [List.mem_flatMap, List.mem_map, List.mem_filter] at hrow'
    obtain ⟨c, hc, d, ⟨hd, hcond⟩, hrow⟩ := hrow'
    subst hrow
    simp only [Bool.and_eq_true, decide_eq_true_eq] at hcond
    obtain ⟨⟨⟨h1, h2⟩, h3⟩, h4⟩ := hcond
    refine ⟨c, hc, d, hd, h1, h2, ?_, rfl, h4, rfl, rfl, rfl, rfl, rfl⟩
    intro p hp
    subst hp
    simpa using h3
  · simp only [search_similar_chunks, List.length_map]
    exact List.length_take_le _ _
  · have htrans : ∀ a b c : ChunkRow V × DocumentRow,
        decide (dist qe a.1.embedding ≤ dist qe b.1.embedding) = true →
        decide (dist qe b.1.embedding ≤ dist qe c.1.embedding) = true →
        decide (dist qe a.1.embedding ≤ dist qe c.1.embedding) = true := by
      intro a b c hab hbc
      simp only [decide_eq_true_eq] at hab hbc ⊢
      exact le_trans hab hbc
    have htotal : ∀ a b : ChunkRow V × DocumentRow,
        (decide (dist qe a.1.embedding ≤ dist qe b.1.embedding)
          || decide (dist qe b.1.embedding ≤ dist qe a.1.embedding)) = true := by
      intro a b
      simp only [Bool.or_eq_true, decide_eq_true_eq]
      exact le_total _ _
    have hsorted := List.sorted_mergeSort htrans htotal
      (db.chunks.flatMap fun c =>
        (db.documents.filter fun d =>
          decide (c.documento_id = d.id) && decide (d.status = "processed")
            && (match pid with
                | some p => decide (d.processo_id = p)
                | none => true)
            && decide (threshold ≤ 1 - dist qe c.embedding)).map fun d => (c, d))
    have htake := List.Pairwise.sublist (List.take_sublist top_k _) hsorted
    simp only [search_similar_chunks]
    rw [List.pairwise_map, List.pairwise_map]
    refine htake.imp ?_
    intro a b hab
    simp only [decide_eq_true_eq] at hab
    exact sub_le_sub_left hab 1
  · simp [search_similar_chunks]

/-- Witness for C1 on a two-document database: the hit from the processed
document of case 7 is returned and satisfies every clause of the search
contract. -/
theorem similarity_search_contract_witness :
    whit ∈ search_similar_chunks wdist wdb 0 (some 7) 5 (-1)
    ∧ ∃ c ∈ wdb.chunks, ∃ d ∈ wdb.documents,
        c.documento_id = d.id ∧ d.status = "processed"
        ∧ (∀ p, (some 7 : Option Nat) = some p → d.processo_id = p)
        ∧ whit.similarity = 1 - wdist 0 c.embedding
        ∧ (-1 : Int) ≤ whit.similarity
        ∧ whit.id = c.id ∧ whit.conteudo = c.conteudo
        ∧ whit.documento_id = c.documento_id
        ∧ whit.doc_titulo = d.titulo ∧ whit.doc_tipo = d.tipo := by
  have hmem : whit ∈ search_similar_chunks wdist wdb 0 (some 7) 5 (-1) := by
    simp [search_similar_chunks, wdb, wdist, wdoc1, wdoc2, wchunk1, wchunk2, whit, wmeta]
  exact ⟨hmem, (similarity_search_contract wdist wdb 0 (some 7) 5 (-1)).1 whit hmem⟩

/-! ## Lifecycle lemmas (claims C2, C3, C10) -/

section LifecycleLemmas

variable {V : Type _}

/-- Looking up the updated row: an id-preserving row update commutes with
`findDoc`. -/
theorem findDoc_updateDoc (docs : List DocState) (id : Nat) (f : DocState → DocState)
    (hf : ∀ d, (f d).id = d.id) :
    findDoc (updateDoc docs id f) id = (findDoc docs id).map f := by
  induction docs with
  | nil => rfl
  | cons d ds ih =>
    simp only [updateDoc, findDoc, List.map_cons] at *
    by_cases h : d.id = id
    · rw [if_pos h]
      rw [List.find?_cons_of_pos _ (by simp [hf d, h]),
        List.find?_cons_of_pos _ (by simp [h])]
      rfl
    · rw [if_neg h]
      rw [List.find?_cons_of_neg _ (by simp [h]),
        List.find?_cons_of_neg _ (by simp [h])]
      exact ih

end LifecycleLemmas

/-- Claim C2: on an existing document, the lifecycle controller ends in
`processed` when every stage succeeds — also when chunking yields zero
fragments, in which case no fragment is stored; and a failing stage
(download, extraction, or embedding) ends in `error` with that exception's
message in the document's error field, leaving the stored fragments
exactly as they were before the attempt (nothing rolled back, nothing
added). -/
theorem lifecycle_status {V : Type _} (env : Env V) (did : Nat) (st : PState V)
    (doc : DocState) (hfind : findDoc st.documents did = some doc) :
    (∀ text, env.download = Except.ok () → env.extract = Except.ok text →
      chunk_text env.count_tokens text env.chunk_size env.overlap = [] →
      docStatus (process_document env did st) did = some "processed"
      ∧ (process_document env did st).chunks = st.chunks)
    ∧ (∀ text embs, env.download = Except.ok () → env.extract = Except.ok text →
      chunk_text env.count_tokens text env.chunk_size env.overlap ≠ [] →
      env.embed ((chunk_text env.count_tokens text env.chunk_size env.overlap).map
        ChunkRec.conteudo) = Except.ok embs →
      docStatus (process_document env did st) did = some "processed")
    ∧ (∀ e, env.download = Except.error e →
      docStatus (process_document env did st) did = some "error"
      ∧ docErrorMsg (process_document env did st) did = some e
      ∧ (process_document env did st).chunks = st.chunks)
    ∧ (∀ e, env.download = Except.ok () → env.extract = Except.error e →
      docStatus (process_document env did st) did = some "error"
      ∧ docErrorMsg (process_document env did st) did = some e
      ∧ (process_document env did st).chunks = st.chunks)
    ∧ (∀ text e, env.download = Except.ok () → env.extract = Except.ok text →
      chunk_text env.count_tokens text env.chunk_size env.overlap ≠ [] →
      env.embed ((chunk_text env.count_tokens text env.chunk_size env.overlap).map
        ChunkRec.conteudo) = Except.error e →
      docStatus (process_document env did st) did = some "error"
      ∧ docErrorMsg (process_document env did st) did = some e
      ∧ (process_document env did st).chunks = st.chunks) := by
  refine ⟨?_, ?_, ?_, ?_, ?_⟩
  · intro text hdl hex hchunks
    simp only [process_document, hfind, hdl, hex, hchunks]
    rw [if_pos trivial]
    constructor
    · simp only [docStatus]
      rw [findDoc_updateDoc, findDoc_updateDoc, findDoc_updateDoc, hfind]
      · rfl
      all_goals exact fun d => rfl
    · rfl
  · intro text embs hdl hex hne hemb
    simp only [process_document, hfind, hdl, hex, if_neg hne, hemb]
    have hstatus : ∀ (chs : List (ChunkRow V)) (k : Nat),
        docStatus
          (⟨updateDoc (updateDoc (updateDoc st.documents did
              (fun d => { d with status := "processing" })) did
              (fun d => { d with texto_extraido := some text })) did
              (fun d => { d with status := "processed" }), chs, k⟩ : PState V) did
          = some "processed" := by
      intro chs k
      simp only [docStatus]
      rw [findDoc_updateDoc, findDoc_updateDoc, findDoc_updateDoc, hfind]
      · rfl
      all_goals exact fun d => rfl
    by_cases hfin : doc.tipo = "extrato_bancario" ∨ doc.tipo = "comprovante"
    · rw [if_pos hfin]
      cases env.analyze with
      | ok _ => exact hstatus _ _
      | error _ => exact hstatus _ _
    · rw [if_neg hfin]
      exact hstatus _ _
  · intro e hdl
    simp only [process_document, hfind, hdl]
    refine ⟨?_, ?_, trivial⟩
    · simp only [docStatus]
      rw [findDoc_updateDoc, findDoc_updateDoc, hfind]
      · rfl
      all_goals exact fun d => rfl
    · simp only [docErrorMsg]
      rw [findDoc_updateDoc, findDoc_updateDoc, hfind]
      · rfl
      all_goals exact fun d => rfl
  · intro e hdl hex
    simp only [process_document, hfind, hdl, hex]
    refine ⟨?_, ?_, trivial⟩
    · simp only [docStatus]
      rw [findDoc_updateDoc, findDoc_updateDoc, hfind]
      · rfl
      all_goals exact fun d => rfl
    · simp only [docErrorMsg]
      rw [findDoc_updateDoc, findDoc_updateDoc, hfind]
      · rfl
      all_goals exact fun d => rfl
  · intro text e hdl hex hne hemb
    simp only [process_document, hfind, hdl, hex, if_neg hne, hemb]
    refine ⟨?_, ?_, trivial⟩
    · simp only [docStatus]
      rw [findDoc_updateDoc, findDoc_updateDoc, findDoc_updateDoc, hfind]
      · rfl
      all_goals exact fun d => rfl
    · simp only [docErrorMsg]
      rw [findDoc_updateDoc, findDoc_updateDoc, findDoc_updateDoc, hfind]
      · rfl
      all_goals exact fun d => rfl

/-- Witness for C2: the all-stages-succeed run on the one-document state
ends in `processed`. -/
theorem lifecycle_status_witness :
    findDoc pst0.documents 1 = some pdoc
    ∧ docStatus (process_document envOK 1 pst0) 1 = some "processed" :=
  ⟨by decide,
   (lifecycle_status envOK 1 pst0 pdoc (by decide)).2.1 "Hello world." [0]
     rfl rfl (by decide) rfl⟩

/-- Counterexample to C3 as stated: a successful run on a document that
already has a stored fragment (`legacyChunk`, from an earlier run) ends in
`processed` with that old fragment still stored, even though it is not
part of this run's chunker output — fragments are appended, never
replaced. -/
theorem replace_fragments_counterexample :
    docStatus (process_document envOK 1 pst0) 1 = some "processed"
    ∧ legacyChunk ∈ (process_document envOK 1 pst0).chunks
    ∧ legacyChunk.conteudo ∉
        (chunk_text envOK.count_tokens "Hello world." envOK.chunk_size
          envOK.overlap).map ChunkRec.conteudo := by
  decide

/-- Amended C3: a successful run appends exactly this run's fragment
rows — one per `(chunk, embedding)` pair, with `posicao = i` and the
document's denormalized metadata snapshot — after the previously stored
fragments, which are not deleted; hence only a document with no prior
fragments ends up with exactly this run's fragments. -/
theorem fragments_appended {V : Type _} (env : Env V) (did : Nat) (st : PState V)
    (doc : DocState) (text : String) (embs : List V)
    (hfind : findDoc st.documents did = some doc)
    (hdl : env.download = Except.ok ()) (hex : env.extract = Except.ok text)
    (hne : chunk_text env.count_tokens text env.chunk_size env.overlap ≠ [])
    (hemb : env.embed ((chunk_text env.count_tokens text env.chunk_size env.overlap).map
      ChunkRec.conteudo) = Except.ok embs) :
    (process_document env did st).chunks
      = st.chunks
        ++ newChunkRows doc (chunk_text env.count_tokens text env.chunk_size env.overlap) embs
    ∧ ∀ (i : Nat) (r : ChunkRow V),
        (newChunkRows doc (chunk_text env.count_tokens text env.chunk_size env.overlap)
          embs)[i]? = some r →
        r.documento_id = doc.id ∧ r.posicao = i
        ∧ r.metadata = ⟨doc.tipo, doc.titulo, doc.participantes.getD [],
            doc.data_referencia⟩
        ∧ ∃ ce, ((chunk_text env.count_tokens text env.chunk_size env.overlap).zip
              embs)[i]? = some ce
            ∧ r.conteudo = ce.1.conteudo ∧ r.token_count = ce.1.token_count
            ∧ r.embedding = ce.2 := by
  constructor
  · simp only [process_document, hfind, hdl, hex, if_neg hne, hemb]
    by_cases hfin : doc.tipo = "extrato_bancario" ∨ doc.tipo = "comprovante"
    · rw [if_pos hfin]
      cases env.analyze <;> rfl
    · rw [if_neg hfin]
  · intro i r hr
    simp only [newChunkRows, List.getElem?_map, List.getElem?_enum] at hr
    rcases hz : ((chunk_text env.count_tokens text env.chunk_size env.overlap).zip
        embs)[i]? with _ | ce
    · rw [hz] at hr
      simp at hr
    · rw [hz] at hr
      simp at hr
      subst hr
      exact ⟨rfl, rfl, rfl, ce, rfl, rfl, rfl, rfl⟩

/-- Witness for C3's amended theorem: the run on `pst0` appends its single
fragment after the legacy one. -/
theorem fragments_appended_witness :
    (process_document envOK 1 pst0).chunks
      = pst0.chunks
        ++ newChunkRows pdoc (chunk_text envOK.count_tokens "Hello world."
            envOK.chunk_size envOK.overlap) [0] :=
  (fragments_appended envOK 1 pst0 pdoc "Hello world." [0]
    (by decide) rfl rfl (by decide) rfl).1

/-- Applying a `DocumentUpdate` payload never changes the row id. -/
theorem applyUpdate_id (p : DocumentUpdatePayload) (d : DocState) :
    (applyUpdate p d).id = d.id := by
  rcases p with ⟨t, ti, dr⟩
  cases t <;> cases ti <;> cases dr <;> rfl

/-- Applying a `DocumentUpdate` payload never changes the status. -/
theorem applyUpdate_status (p : DocumentUpdatePayload) (d : DocState) :
    (applyUpdate p d).status = d.status := by
  rcases p with ⟨t, ti, dr⟩
  cases t <;> cases ti <;> cases dr <;> rfl

/-- Counterexample to C10 as stated: a financial document whose extraction
yields empty text reaches `processed` through the zero-fragment early
return, which sits before the financial-analysis block — the collaborator
is never invoked for it. -/
theorem financial_trigger_counterexample :
    pdocFin.tipo = "extrato_bancario"
    ∧ docStatus (process_document envEmpty 1 pstFin) 1 = some "processed"
    ∧ (process_document envEmpty 1 pstFin).analyzerCalls = 0 := by
  decide

/-- Amended C10: the financial-extraction collaborator is invoked
exactly once when a financial-category document reaches `processed` with
at least one fragment (the zero-fragment success path skips it), and never
for a non-financial document; its outcome — success or exception — is
swallowed and the status stays `processed`.  Likewise, re-categorizing a
`processed` document from a non-financial to a financial category invokes
the collaborator exactly once, and an exception there leaves the document
`processed`. -/
theorem financial_trigger_amended {V : Type _} :
    (∀ (env : Env V) (did : Nat) (st : PState V) (doc : DocState)
        (text : String) (embs : List V),
      findDoc st.documents did = some doc →
      isFinancialTipo doc.tipo →
      env.download = Except.ok () → env.extract = Except.ok text →
      chunk_text env.count_tokens text env.chunk_size env.overlap ≠ [] →
      env.embed ((chunk_text env.count_tokens text env.chunk_size env.overlap).map
        ChunkRec.conteudo) = Except.ok embs →
      (process_document env did st).analyzerCalls = st.analyzerCalls + 1
      ∧ docStatus (process_document env did st) did = some "processed")
    ∧ (∀ (env : Env V) (did : Nat) (st : PState V) (doc : DocState) (text : String),
      findDoc st.documents did = some doc →
      env.download = Except.ok () → env.extract = Except.ok text →
      chunk_text env.count_tokens text env.chunk_size env.overlap = [] →
      (process_document env did st).analyzerCalls = st.analyzerCalls)
    ∧ (∀ (env : Env V) (did : Nat) (st : PState V) (doc : DocState)
        (text : String) (embs : List V),
      findDoc st.documents did = some doc →
      ¬ isFinancialTipo doc.tipo →
      env.download = Except.ok () → env.extract = Except.ok text →
      chunk_text env.count_tokens text env.chunk_size env.overlap ≠ [] →
      env.embed ((chunk_text env.count_tokens text env.chunk_size env.overlap).map
        ChunkRec.conteudo) = Except.ok embs →
      (process_document env did st).analyzerCalls = st.analyzerCalls)
    ∧ (∀ (payload : DocumentUpdatePayload) (did : Nat) (st : PState V)
        (document : DocState) (analyze : Except String Unit),
      findDoc st.documents did = some document →
      document.status = "processed" →
      ¬ isFinancialTipo document.tipo →
      newTipoFinancial payload.tipo →
      (update_document payload did analyze st).analyzerCalls = st.analyzerCalls + 1
      ∧ docStatus (update_document payload did analyze st) did = some "processed") := by
  refine ⟨?_, ?_, ?_, ?_⟩
  · intro env did st doc text embs hfind hfin hdl hex hne hemb
    unfold isFinancialTipo at hfin
    simp only [process_document, hfind, hdl, hex, if_neg hne, hemb, if_pos hfin]
    constructor
    · cases env.analyze <;> rfl
    · cases env.analyze <;>
        (simp only [docStatus]
         rw [findDoc_updateDoc, findDoc_updateDoc, findDoc_updateDoc, hfind]
         · rfl
         all_goals exact fun d => rfl)
  · intro env did st doc text hfind hdl hex hchunks
    simp only [process_document, hfind, hdl, hex, hchunks]
    rw [if_pos trivial]
  · intro env did st doc text embs hfind hfin hdl hex hne hemb
    unfold isFinancialTipo at hfin
    simp only [process_document, hfind, hdl, hex, if_neg hne, hemb, if_neg hfin]
  · intro payload did st document analyze hfind hproc hold hnew
    have hne : ¬ (payload.titulo = none ∧ payload.tipo = none
        ∧ payload.data_referencia = none) := by
      intro h
      rw [h.2.1] at hnew
      exact hnew
    have hcond : newTipoFinancial payload.tipo
        ∧ ¬ isFinancialTipo document.tipo
        ∧ (applyUpdate payload document).status = "processed" :=
      ⟨hnew, hold, by rw [applyUpdate_status]; exact hproc⟩
    simp only [update_document, hfind, if_neg hne, if_pos hcond]
    constructor
    · cases analyze <;> rfl
    · cases analyze <;>
        (simp only [docStatus]
         rw [findDoc_updateDoc, hfind]
         · simp [applyUpdate_status, hproc]
         all_goals exact applyUpdate_id payload)

/-- Witness for C10's amended theorem: a financial document processed with
one fragment under a throwing analyzer (invoked once, still `processed`),
and a processed non-financial document re-categorized to `comprovante`
under a throwing analyzer (invoked once, still `processed`). -/
theorem financial_trigger_amended_witness :
    ((process_document envFinErr 1 pstFin).analyzerCalls = 1
      ∧ docStatus (process_document envFinErr 1 pstFin) 1 = some "processed")
    ∧ ((update_document ⟨none, some "comprovante", none⟩ 1
          (Except.error "boom") pstProc).analyzerCalls = 1
      ∧ docStatus (update_document ⟨none, some "comprovante", none⟩ 1
          (Except.error "boom") pstProc) 1 = some "processed") :=
  ⟨(financial_trigger_amended (V := Nat)).1 envFinErr 1 pstFin pdocFin
      "Hello world." [0] (by decide) (by decide) rfl rfl (by decide) rfl,
   (financial_trigger_amended (V := Nat)).2.2.2 ⟨none, some "comprovante", none⟩
      1 pstProc pdocProc (Except.error "boom") (by decide) (by decide)
      (by decide) (by decide)⟩

/-! ## Streaming lemmas (claims C4, C5) -/

section StreamLemmas

variable {V : Type _} {S : Type _}

/-- One step of the usage totals. -/
theorem usageTotals_cons (u : StreamChunk) (rest : List StreamChunk) (pin pout : Nat) :
    usageTotals (u :: rest) pin pout
      = usageTotals rest
          (match u.usage with | some t => t.1 | none => pin)
          (match u.usage with | some t => t.2 | none => pout) := by
  simp only [usageTotals, List.foldl_cons]
  cases u.usage <;> rfl

/-- Full description of the streaming loop: it yields one `token` event per
truthy delta in arrival order, accumulates them into the running answer,
and tracks the trailing usage totals. -/
theorem streamLoop_spec (S : Type _) (us : List StreamChunk) :
    ∀ (ans : String) (pin pout : Nat),
      streamLoop S us ans pin pout
        = ((us.filterMap deltaOf).map SSEEvent.token,
           ans ++ strConcat (us.filterMap deltaOf),
           usageTotals us pin pout) := by
  induction us with
  | nil =>
    intro ans pin pout
    simp [streamLoop, strConcat, usageTotals]
  | cons u rest ih =>
    intro ans pin pout
    simp only [streamLoop]
    rcases hd : deltaOf u with _ | s
    · simp only [List.filterMap_cons, hd, ih, usageTotals_cons]
    · simp only [List.filterMap_cons, hd, ih, usageTotals_cons, List.map_cons, strConcat]
      rw [String.append_assoc]

end StreamLemmas

/-- The event list `chat_stream` yields, in closed form: the two status
events, one token event per truthy upstream delta in order, the sources
event, and the terminal done event carrying the blocking-shaped result. -/
theorem chat_stream_eq {V : Type _} {S : Type _} [LinearOrder S] [Sub S] [One S]
    (dist : V → V → S) (db : DB V) (qe : V) (pid : Option Nat) (top_k : Nat)
    (threshold : S) (upstream : List StreamChunk) :
    chat_stream dist db qe pid top_k threshold upstream
      = SSEEvent.status "searching" :: SSEEvent.status "generating"
        :: ((upstream.filterMap deltaOf).map SSEEvent.token
          ++ [SSEEvent.sources
                ((search_similar_chunks dist db qe pid top_k threshold).map fun c =>
                  ⟨c.doc_titulo, c.doc_tipo, c.similarity, c.documento_id⟩),
              SSEEvent.done
                { answer := strConcat (upstream.filterMap deltaOf)
                  chunks_used := (search_similar_chunks dist db qe pid top_k
                    threshold).map SearchHit.id
                  sources := (search_similar_chunks dist db qe pid top_k
                    threshold).map fun c =>
                      ⟨c.doc_titulo, c.doc_tipo, c.similarity, c.documento_id⟩
                  tokens_input := (usageTotals upstream 0 0).1
                  tokens_output := (usageTotals upstream 0 0).2
                  cost_usd := costUsd (usageTotals upstream 0 0).1
                    (usageTotals upstream 0 0).2 }]) := by
  simp only [chat_stream, streamLoop_spec]
  have h : ("" : String) ++ strConcat (upstream.filterMap deltaOf)
      = strConcat (upstream.filterMap deltaOf) := by
    simp
  rw [h]
  rfl

/-- Claim C4: every streaming run yields exactly the ordered sequence
`status searching`, `status generating`, one `token` per upstream delta in
arrival order, one `sources` event, and exactly one terminal `done` event
whose payload is the blocking-shaped `ChatResult` — answer, chunks_used,
sources, tokens_input, tokens_output, cost_usd. -/
theorem streaming_event_sequence {V : Type _} {S : Type _}
    [LinearOrder S] [Sub S] [One S]
    (dist : V → V → S) (db : DB V) (qe : V) (pid : Option Nat) (top_k : Nat)
    (threshold : S) (upstream : List StreamChunk) :
    ∃ (srcs : List (SourceInfo S)) (r : ChatResult S),
      chat_stream dist db qe pid top_k threshold upstream
        = SSEEvent.status "searching" :: SSEEvent.status "generating"
          :: ((upstream.filterMap deltaOf).map SSEEvent.token
            ++ [SSEEvent.sources srcs, SSEEvent.done r])
      ∧ srcs = (search_similar_chunks dist db qe pid top_k threshold).map
          (fun c => ⟨c.doc_titulo, c.doc_tipo, c.similarity, c.documento_id⟩)
      ∧ r.answer = strConcat (upstream.filterMap deltaOf)
      ∧ r.chunks_used
          = (search_similar_chunks dist db qe pid top_k threshold).map SearchHit.id
      ∧ r.sources = srcs
      ∧ r.tokens_input = (usageTotals upstream 0 0).1
      ∧ r.tokens_output = (usageTotals upstream 0 0).2
      ∧ r.cost_usd = costUsd r.tokens_input r.tokens_output
      ∧ (chat_stream dist db qe pid top_k threshold upstream).countP
          SSEEvent.isDone = 1 := by
  refine ⟨_, _, chat_stream_eq dist db qe pid top_k threshold upstream,
    rfl, rfl, rfl, rfl, rfl, rfl, rfl, ?_⟩
  rw [chat_stream_eq dist db qe pid top_k threshold upstream]
  simp only [List.countP_cons, List.countP_append, List.countP_map,
    SSEEvent.isDone, List.countP_nil, Function.comp]
  simp [List.countP_eq_zero]
  intro a x hx hd
  rfl

/-! ### Persistence of the streamed result (claim C5) -/

section CaptureLemmas

variable {S : Type _}

/-- The capture fold ends on the payload of a trailing `done` event. -/
theorem captureDone_append_done (l : List (SSEEvent S)) (r : ChatResult S) :
    captureDone (l ++ [SSEEvent.done r]) = some r := by
  simp [captureDone, List.foldl_append]

/-- A stream with no `done` event captures nothing. -/
theorem captureDone_eq_none (l : List (SSEEvent S))
    (h : ∀ e ∈ l, SSEEvent.isDone e = false) : captureDone l = none := by
  induction l with
  | nil => rfl
  | cons e rest ih =>
    have he := h e (List.mem_cons_self _ _)
    have hstep : (match e with
        | SSEEvent.done r => some r
        | _ => (none : Option (ChatResult S))) = none := by
      cases e <;> simp_all [SSEEvent.isDone]
    simp only [captureDone, List.foldl_cons]
    rw [hstep]
    exact ih fun e' he' => h e' (List.mem_cons_of_mem _ he')

end CaptureLemmas

/-- Claim C5: the user message is persisted before generation; after a
complete stream the single assistant message persisted is built from the
terminal done payload; and consuming any proper prefix of the stream
(interruption before `done`) persists no assistant message while the user
message remains. -/
theorem streaming_persistence {V : Type _} {S : Type _}
    [LinearOrder S] [Sub S] [One S]
    (dist : V → V → S) (db : DB V) (qe : V) (pid : Option Nat) (top_k : Nat)
    (threshold : S) (upstream : List StreamChunk) (userContent : String)
    (msgs : List (MessageRow S)) :
    (∃ r : ChatResult S,
      captureDone (chat_stream dist db qe pid top_k threshold upstream) = some r
      ∧ send_message_stream userContent
          (chat_stream dist db qe pid top_k threshold upstream) msgs
        = msgs ++ [⟨"user", userContent, none⟩, ⟨"assistant", r.answer, some r⟩]
      ∧ r.answer = strConcat (upstream.filterMap deltaOf))
    ∧ ∀ n, n < (chat_stream dist db qe pid top_k threshold upstream).length →
        send_message_stream userContent
          ((chat_stream dist db qe pid top_k threshold upstream).take n) msgs
        = msgs ++ [⟨"user", userContent, none⟩] := by
  have heq := chat_stream_eq dist db qe pid top_k threshold upstream
  set F := upstream.filterMap deltaOf with hF
  set srcs := (search_similar_chunks dist db qe pid top_k threshold).map
    (fun c => (⟨c.doc_titulo, c.doc_tipo, c.similarity, c.documento_id⟩ : SourceInfo S))
    with hsrcs
  set r0 : ChatResult S :=
    { answer := strConcat F
      chunks_used := (search_similar_chunks dist db qe pid top_k threshold).map
        SearchHit.id
      sources := srcs
      tokens_input := (usageTotals upstream 0 0).1
      tokens_output := (usageTotals upstream 0 0).2
      cost_usd := costUsd (usageTotals upstream 0 0).1 (usageTotals upstream 0 0).2 }
    with hr0
  have hsplit : chat_stream dist db qe pid top_k threshold upstream
      = (SSEEvent.status "searching" :: SSEEvent.status "generating"
          :: (F.map SSEEvent.token ++ [SSEEvent.sources srcs]))
        ++ [SSEEvent.done r0] := by
    rw [heq]
    simp
  have hA : ∀ e ∈ SSEEvent.status "searching" :: SSEEvent.status "generating"
      :: (F.map SSEEvent.token ++ [SSEEvent.sources srcs]),
      SSEEvent.isDone e = false := by
    intro e he
    simp only [List.mem_cons, List.mem_append, List.mem_map,
      List.mem_singleton] at he
    rcases he with rfl | rfl | ⟨s, _, rfl⟩ | rfl | h0
    · rfl
    · rfl
    · rfl
    · rfl
    · exact absurd h0 (List.not_mem_nil e)
  constructor
  · refine ⟨r0, ?_, ?_, rfl⟩
    · rw [hsplit]
      exact captureDone_append_done _ _
    · rw [send_message_stream, hsplit, captureDone_append_done]
      simp
  · intro n hn
    have hlen : n ≤ (SSEEvent.status "searching" :: SSEEvent.status "generating"
        :: (F.map SSEEvent.token ++ [SSEEvent.sources srcs])).length := by
      rw [hsplit] at hn
      simp only [List.length_append, List.length_singleton] at hn
      omega
    have htake : (chat_stream dist db qe pid top_k threshold upstream).take n
        = (SSEEvent.status "searching" :: SSEEvent.status "generating"
            :: (F.map SSEEvent.token ++ [SSEEvent.sources srcs])).take n := by
      rw [hsplit]
      exact List.take_append_of_le_length hlen
    have hnone : captureDone ((chat_stream dist db qe pid top_k threshold
        upstream).take n) = none := by
      rw [htake]
      exact captureDone_eq_none _ fun e he => hA e (List.mem_of_mem_take he)
    rw [send_message_stream, hnone]

/-- Witness for C5: interrupting the fixture stream after 5 delivered
events (the two status events, both token events and the sources event,
i.e. before `done`) persists only the user message. -/
theorem streaming_persistence_witness :
    5 < (chat_stream wdist wdb (0 : Int) none 5 (-1) sups).length
    ∧ send_message_stream "oi"
        ((chat_stream wdist wdb (0 : Int) none 5 (-1) sups).take 5)
        ([] : List (MessageRow Int))
      = [⟨"user", "oi", none⟩] := by
  have hlen : 5 < (chat_stream wdist wdb (0 : Int) none 5 (-1) sups).length := by
    rw [chat_stream_eq]
    simp [sups, deltaOf]
  have h := (streaming_persistence wdist wdb (0 : Int) none 5 (-1) sups "oi"
    ([] : List (MessageRow Int))).2 5 hlen
  exact ⟨hlen, by simpa using h⟩

end ApoioProcessual
